import Mathlib

/-!
# Verification of the `bean` behavioral-scoring service

A shallow embedding of the core of the `bean` repository (Go) in Lean 4,
together with proofs of the specified properties.

Conventions of the embedding:
* Go `map[string]V` becomes an association list `List (String × V)`;
  `mapGet?`/`mapSet` mirror Go map read and assignment (per-key update,
  iteration-order independent for the loops modelled here).
* Go `float32` score values become `Rat`; the clamping logic under
  verification does not depend on floating-point rounding.
* Go `int` stays `Int` where the sign matters (ring-buffer capacity),
  `Nat` for internal always-nonnegative indices.
* `panic` and returned `error` become `Except String`.
* `time.Time` values are opaque `Int` timestamps passed explicitly
  (`time.Now()` becomes a `now` argument).
-/

namespace Bean

/-- A scalar metric value carried in a trace (the recognized schema mixes
integers, booleans and strings). Modelled from the spec: the `trace.Trace`
type declaration (`type Trace map[string]any`) is not among the provided
source files; only its uses are. -/
inductive TraceValue where
  | int (n : Int)
  | str (s : String)
  | bool (b : Bool)
  deriving DecidableEq, Repr, Inhabited

/-- A single behavioral trace: a flat mapping from metric name to value
(Go `trace.Trace`, a `map[string]any`). -/
abbrev Trace := List (String × TraceValue)

/-- A score vector: mapping from dimension name to value
(Go `score.Score`, a `map[string]float32`). -/
abbrev Score := List (String × Rat)

/-- Go map read `m[k]` returning presence: `v, ok := m[k]`. -/
def mapGet? {β : Type} : List (String × β) → String → Option β
  | [], _ => none
  | kv :: rest, k => if kv.1 = k then some kv.2 else mapGet? rest k

/-- Go map assignment `m[k] = v`: replaces the binding for `k` when present,
otherwise adds it. -/
def mapSet {β : Type} : List (String × β) → String → β → List (String × β)
  | [], k, v => [(k, v)]
  | kv :: rest, k, v => if kv.1 = k then (k, v) :: rest else kv :: mapSet rest k v

/-- Go map read of a `map[string]float32` at a missing key yields the zero
value `0.0` (used by the accumulating loops `score[key] + d`). -/
def scoreGet (s : Score) (k : String) : Rat :=
  (mapGet? s k).getD 0

theorem mapGet?_set_self {β : Type} (m : List (String × β)) (k : String) (v : β) :
    mapGet? (mapSet m k v) k = some v := by
  induction m with
  | nil => simp [mapGet?, mapSet]
  | cons kv rest ih =>
      by_cases h : kv.1 = k
      · simp [mapGet?, mapSet, h]
      · simp [mapGet?, mapSet, h, ih]

theorem mapGet?_set_ne {β : Type} (m : List (String × β)) (k u : String) (v : β)
    (h : u ≠ k) : mapGet? (mapSet m k v) u = mapGet? m u := by
  have hku : ¬k = u := fun hh => h hh.symm
  induction m with
  | nil => simp [mapGet?, mapSet, hku]
  | cons kv rest ih =>
      by_cases hk : kv.1 = k
      · subst hk
        simp [mapGet?, mapSet, hku]
      · by_cases hu : kv.1 = u
        · simp [mapGet?, mapSet, hk, hu, hku, h]
        · simp [mapGet?, mapSet, hk, hu, ih]

theorem mem_mapSet {β : Type} (m : List (String × β)) (k : String) (v : β) :
    ∀ kv ∈ mapSet m k v, kv = (k, v) ∨ kv ∈ m := by
  induction m with
  | nil => simp [mapSet]
  | cons hd rest ih =>
      intro kv hkv
      by_cases h : hd.1 = k
      · simp only [mapSet, h, if_pos rfl] at hkv
        rcases List.mem_cons.mp hkv with h1 | h2
        · exact Or.inl h1
        · exact Or.inr (List.mem_cons_of_mem _ h2)
      · simp only [mapSet, if_neg h] at hkv
        rcases List.mem_cons.mp hkv with h1 | h2
        · exact Or.inr (h1 ▸ List.mem_cons_self _ _)
        · rcases ih kv h2 with h3 | h4
          · exact Or.inl h3
          · exact Or.inr (List.mem_cons_of_mem _ h4)

/-! ## RingBuffer (src/internal/utils/ring_buffer.go) -/

/-- Embeds `utils.RingBuffer[T]`: fixed-size circular buffer. The backing Go slice
`data` becomes a `List T`; `size`, `count`, `head`, `tail` are the struct
fields (all nonnegative by construction, hence `Nat`). The mutex is a
concurrency artifact with no sequential content and is dropped. -/
structure RingBuffer (T : Type) where
  data : List T
  size : Nat
  count : Nat
  head : Nat
  tail : Nat
  deriving Repr

/-- Embeds `utils.NewRingBuffer[T](size int)`: panics (`Except.error`) when
`size <= 0`, otherwise allocates `make([]T, size)` (zero values). -/
def NewRingBuffer (T : Type) [Inhabited T] (size : Int) : Except String (RingBuffer T) :=
  if size ≤ 0 then .error "ring buffer size must be positive"
  else .ok { data := List.replicate size.toNat default, size := size.toNat,
             count := 0, head := 0, tail := 0 }

/-- Embeds `RingBuffer.Push`: write at `tail`, advance `tail` modulo `size`; grow
`count` when not yet full, otherwise advance `head` (displace the oldest). -/
def RingBuffer.Push {T : Type} (rb : RingBuffer T) (item : T) : RingBuffer T :=
  let data := rb.data.set rb.tail item
  let tail := (rb.tail + 1) % rb.size
  if rb.count < rb.size then
    { rb with data := data, tail := tail, count := rb.count + 1 }
  else
    { rb with data := data, tail := tail, head := (rb.head + 1) % rb.size }

/-- Embeds `RingBuffer.Len`: current number of elements. -/
def RingBuffer.Len {T : Type} (rb : RingBuffer T) : Nat := rb.count

/-- Embeds `RingBuffer.Cap`: buffer capacity. -/
def RingBuffer.Cap {T : Type} (rb : RingBuffer T) : Nat := rb.size

/-- Embeds `RingBuffer.ToSlice`: fresh sequence of the `count` live elements in
oldest-to-newest order, reading `data[(head+i) % size]`. -/
def RingBuffer.ToSlice {T : Type} [Inhabited T] (rb : RingBuffer T) : List T :=
  (List.range rb.count).map (fun i => rb.data.getD ((rb.head + i) % rb.size) default)

/-- Structural well-formedness maintained by `NewRingBuffer` and `Push`:
the backing slice has length `size > 0`, at most `size` elements are live,
`head` is a valid index and `tail` is the write position one past the
newest element. -/
structure RingBuffer.WF {T : Type} (rb : RingBuffer T) : Prop where
  size_pos : 0 < rb.size
  data_size : rb.data.length = rb.size
  count_le : rb.count ≤ rb.size
  head_lt : rb.head < rb.size
  tail_eq : rb.tail = (rb.head + rb.count) % rb.size

theorem newRingBuffer_wf {T : Type} [Inhabited T] (size : Int) (rb : RingBuffer T)
    (h : NewRingBuffer T size = .ok rb) : rb.WF := by
  unfold NewRingBuffer at h
  by_cases hs : size ≤ 0
  · simp [hs] at h
  · simp [hs] at h
    subst h
    refine ⟨?_, ?_, ?_, ?_, ?_⟩ <;> simp [List.length_replicate] <;> omega

theorem toSlice_length {T : Type} [Inhabited T] (rb : RingBuffer T) :
    rb.ToSlice.length = rb.count := by
  simp [RingBuffer.ToSlice]

theorem push_size {T : Type} (rb : RingBuffer T) (x : T) :
    (rb.Push x).size = rb.size := by
  unfold RingBuffer.Push
  by_cases h : rb.count < rb.size <;> simp [h]

theorem wf_push {T : Type} (rb : RingBuffer T) (x : T) (h : rb.WF) :
    (rb.Push x).WF := by
  obtain ⟨hpos, hdata, hcnt, hhead, htail⟩ := h
  unfold RingBuffer.Push
  by_cases hc : rb.count < rb.size
  · simp only [if_pos hc]
    refine ⟨hpos, ?_, hc, hhead, ?_⟩
    · simpa [List.length_set] using hdata
    · simp only [htail]
      rw [Nat.mod_add_mod, Nat.add_assoc]
  · simp only [if_neg hc]
    refine ⟨hpos, ?_, hcnt, Nat.mod_lt _ hpos, ?_⟩
    · simpa [List.length_set] using hdata
    · have hce : rb.count = rb.size := le_antisymm hcnt (not_lt.mp hc)
      simp only [htail, hce]
      rw [Nat.mod_add_mod, Nat.mod_add_mod,
        show rb.head + rb.size + 1 = rb.head + 1 + rb.size from by omega,
        Nat.add_mod_right]

theorem toSlice_get {T : Type} [Inhabited T] (rb : RingBuffer T) (i : Nat)
    (h : i < rb.ToSlice.length) :
    rb.ToSlice.get ⟨i, h⟩ = rb.data.getD ((rb.head + i) % rb.size) default := by
  simp [RingBuffer.ToSlice, List.get_map, List.get_range]

theorem mod_shift_inj (h i j n : Nat) (hi : i < n) (hj : j < n)
    (hmod : (h + i) % n = (h + j) % n) : i = j := by
  have h2 := Nat.ModEq.add_left_cancel' h (show h + i ≡ h + j [MOD n] from hmod)
  have h3 : i % n = j % n := h2
  rw [Nat.mod_eq_of_lt hi, Nat.mod_eq_of_lt hj] at h3
  exact h3

theorem toSlice_push {T : Type} [Inhabited T] (rb : RingBuffer T) (hwf : rb.WF) (x : T) :
    (rb.Push x).ToSlice =
      if rb.count < rb.size then rb.ToSlice ++ [x] else rb.ToSlice.tail ++ [x] := by
  obtain ⟨hpos, hdata, hcnt, hhead, htail⟩ := hwf
  have htlt : rb.tail < rb.data.length := by
    rw [hdata, htail]; exact Nat.mod_lt _ hpos
  by_cases hc : rb.count < rb.size
  · -- not full: the pushed buffer lists the old elements then x
    have hd : (rb.Push x).data = rb.data.set rb.tail x := by
      unfold RingBuffer.Push; simp [hc]
    have hh : (rb.Push x).head = rb.head := by
      unfold RingBuffer.Push; simp [hc]
    have hs : (rb.Push x).size = rb.size := by
      unfold RingBuffer.Push; simp [hc]
    have hcount : (rb.Push x).count = rb.count + 1 := by
      unfold RingBuffer.Push; simp [hc]
    rw [if_pos hc]
    apply List.ext_get
    · simp [toSlice_length, hcount]
    · intro i h1 h2
      have hi : i < rb.count + 1 := by
        simpa [toSlice_length, hcount] using h1
      rw [toSlice_get, hd, hh, hs]
      by_cases hic : i < rb.count
      · -- old element: the written slot rb.tail is not read here
        have hne : rb.tail ≠ (rb.head + i) % rb.size := by
          rw [htail]
          intro heq
          have := mod_shift_inj rb.head rb.count i rb.size hc
            (lt_of_lt_of_le hic hcnt) heq
          omega
        have hglt : i < rb.ToSlice.length := by rw [toSlice_length]; exact hic
        have hrhs : (rb.ToSlice ++ [x]).get ⟨i, h2⟩ = rb.ToSlice.get ⟨i, hglt⟩ :=
          List.get_append i hglt
        rw [hrhs, toSlice_get]
        rw [List.getD_eq_getElem?_getD, List.getD_eq_getElem?_getD,
          List.getElem?_set_ne hne]
      · -- the new element x sits at index rb.count
        have hie : i = rb.count := by omega
        subst hie
        have hwr : (rb.data.set rb.tail x)[(rb.head + rb.count) % rb.size]? = some x := by
          rw [← htail]
          exact List.getElem?_set_eq htlt
        rw [List.getD_eq_getElem?_getD, hwr]
        have : (rb.ToSlice ++ [x]).get ⟨rb.ToSlice.length, by simp⟩ = x := by simp
        simpa [toSlice_length] using this
  · -- full: the oldest element (at rb.head) is displaced
    have hce : rb.count = rb.size := le_antisymm hcnt (not_lt.mp hc)
    have htailh : rb.tail = rb.head := by
      rw [htail, hce, Nat.add_mod_right, Nat.mod_eq_of_lt hhead]
    have hd : (rb.Push x).data = rb.data.set rb.tail x := by
      unfold RingBuffer.Push; simp [hc]
    have hh : (rb.Push x).head = (rb.head + 1) % rb.size := by
      unfold RingBuffer.Push; simp [hc]
    have hs : (rb.Push x).size = rb.size := by
      unfold RingBuffer.Push; simp [hc]
    have hcount : (rb.Push x).count = rb.count := by
      unfold RingBuffer.Push; simp [hc]
    have hslen : rb.ToSlice.length = rb.size := by rw [toSlice_length, hce]
    rw [if_neg hc]
    apply List.ext_get
    · simp [toSlice_length, hcount, List.length_tail, hslen, hce]
      omega
    · intro i h1 h2
      have hi : i < rb.size := by
        simpa [toSlice_length, hcount, hce] using h1
      have hidx : ((rb.head + 1) % rb.size + i) % rb.size = (rb.head + (1 + i)) % rb.size := by
        rw [Nat.mod_add_mod, Nat.add_assoc]
      rw [toSlice_get, hd, hh, hs, hidx]
      by_cases hic : i < rb.size - 1
      · -- surviving element: equals the old element at position i+1
        have h1i : 1 + i < rb.size := by omega
        have hne : rb.tail ≠ (rb.head + (1 + i)) % rb.size := by
          rw [htailh]
          intro heq
          have heq2 : (rb.head + 0) % rb.size = (rb.head + (1 + i)) % rb.size := by
            rw [Nat.add_zero, Nat.mod_eq_of_lt hhead]; exact heq
          have := mod_shift_inj rb.head 0 (1 + i) rb.size hpos h1i heq2
          omega
        have hti : i < rb.ToSlice.tail.length := by
          rw [List.length_tail, hslen]; exact hic
        have hsi : i + 1 < rb.ToSlice.length := by rw [hslen]; omega
        have hrhs : (rb.ToSlice.tail ++ [x]).get ⟨i, h2⟩ = rb.ToSlice.tail.get ⟨i, hti⟩ :=
          List.get_append i hti
        rw [hrhs, List.get_tail _ _ hti hsi, toSlice_get]
        rw [List.getD_eq_getElem?_getD, List.getD_eq_getElem?_getD,
          List.getElem?_set_ne hne]
        have : rb.head + (1 + i) = rb.head + (i + 1) := by omega
        rw [this]
      · -- the new element x sits at the last position
        have hie : i = rb.size - 1 := by omega
        subst hie
        have hlast : rb.head + (1 + (rb.size - 1)) = rb.head + rb.size := by omega
        rw [hlast, Nat.add_mod_right, Nat.mod_eq_of_lt hhead, ← htailh]
        rw [List.getD_eq_getElem?_getD, List.getElem?_set_eq htlt]
        have hlen : rb.ToSlice.tail.length = rb.size - 1 := by
          rw [List.length_tail, hslen]
        have : (rb.ToSlice.tail ++ [x]).get ⟨rb.ToSlice.tail.length, by simp⟩ = x := by simp
        simpa [hlen] using this

/-- A sequence of pushes into a ring buffer (the "sequence of N pushes" of
the specification). -/
def RingBuffer.pushAll {T : Type} (rb : RingBuffer T) (xs : List T) : RingBuffer T :=
  xs.foldl RingBuffer.Push rb

/-- The last `L` elements of a list, in order: the specification's
"retains exactly min(N, L) items, oldest-to-newest". -/
def lastN {T : Type} (L : Nat) (xs : List T) : List T :=
  xs.drop (xs.length - L)

theorem lastN_tail_concat {T : Type} (L : Nat) (s : List T) (x : T) (xs : List T)
    (hs : s.length = L) (hL : 0 < L) :
    lastN L ((s.tail ++ [x]) ++ xs) = lastN L (s ++ x :: xs) := by
  obtain ⟨a, t, rfl⟩ : ∃ a t, s = a :: t := by
    cases s with
    | nil => simp at hs; omega
    | cons a t => exact ⟨a, t, rfl⟩
  have ht : t.length + 1 = L := by simpa using hs
  simp only [List.tail_cons]
  unfold lastN
  have h1 : ((t ++ [x]) ++ xs).length - L = xs.length := by
    simp [List.length_append]; omega
  have h2 : ((a :: t) ++ x :: xs).length - L = xs.length + 1 := by
    simp [List.length_append]; omega
  rw [h1, h2, List.cons_append, List.drop_succ_cons]
  congr 1
  simp

theorem pushAll_toSlice {T : Type} [Inhabited T] (xs : List T) (rb : RingBuffer T)
    (h : rb.WF) :
    (rb.pushAll xs).WF ∧ (rb.pushAll xs).size = rb.size
    ∧ (rb.pushAll xs).ToSlice = lastN rb.size (rb.ToSlice ++ xs) := by
  induction xs generalizing rb with
  | nil =>
    refine ⟨h, rfl, ?_⟩
    show rb.ToSlice = lastN rb.size (rb.ToSlice ++ [])
    rw [List.append_nil]
    unfold lastN
    have hcl := h.count_le
    have hz : rb.ToSlice.length - rb.size = 0 := by rw [toSlice_length]; omega
    rw [hz, List.drop_zero]
  | cons x xs ih =>
    have hwfp := wf_push rb x h
    obtain ⟨hwf2, hsz2, hsl2⟩ := ih (rb.Push x) hwfp
    have hps := push_size rb x
    have hstep : rb.pushAll (x :: xs) = (rb.Push x).pushAll xs := rfl
    refine ⟨hstep ▸ hwf2, by rw [hstep, hsz2, hps], ?_⟩
    rw [hstep, hsl2, hps, toSlice_push rb h x]
    by_cases hc : rb.count < rb.size
    · rw [if_pos hc]
      congr 1
      simp
    · rw [if_neg hc]
      apply lastN_tail_concat
      · have hcl := h.count_le
        rw [toSlice_length]; omega
      · exact h.size_pos

/-- C2: for every capacity `L > 0` and every sequence of `N` pushes into a
fresh `RingBuffer` of capacity `L`, the buffer afterwards holds exactly
`min N L` items; `ToSlice` lists them in oldest-to-newest order (it equals
the last `min N L` pushed items, in push order), and the last item of the
snapshot equals the most recent push. -/
theorem c2_ringBuffer_push_sequence {T : Type} [Inhabited T] (L : Int) (hL : 0 < L)
    (xs : List T) (rb0 : RingBuffer T) (h0 : NewRingBuffer T L = .ok rb0) :
    (rb0.pushAll xs).Len = min xs.length L.toNat
    ∧ (rb0.pushAll xs).ToSlice = lastN L.toNat xs
    ∧ (xs ≠ [] → (rb0.pushAll xs).ToSlice.getLast? = xs.getLast?) := by
  have hwf := newRingBuffer_wf L rb0 h0
  unfold NewRingBuffer at h0
  rw [if_neg (by omega)] at h0
  injection h0 with hrb
  have hsz : rb0.size = L.toNat := by rw [← hrb]
  have hcnt0 : rb0.count = 0 := by rw [← hrb]
  have hsl0 : rb0.ToSlice = [] := by
    unfold RingBuffer.ToSlice
    rw [hcnt0]
    rfl
  obtain ⟨hwf2, hsz2, hsl2⟩ := pushAll_toSlice xs rb0 hwf
  rw [hsl0, hsz] at hsl2
  simp only [List.nil_append] at hsl2
  refine ⟨?_, hsl2, ?_⟩
  · have hlen := congrArg List.length hsl2
    rw [toSlice_length] at hlen
    unfold lastN at hlen
    rw [List.length_drop] at hlen
    show (rb0.pushAll xs).count = _
    omega
  · intro hne
    rw [hsl2]
    unfold lastN
    have hxs : 0 < xs.length := List.length_pos.mpr hne
    have hLpos : 0 < L.toNat := by omega
    have hdropne : xs.drop (xs.length - L.toNat) ≠ [] := by
      intro hnil
      have := congrArg List.length hnil
      simp [List.length_drop] at this
      omega
    conv_rhs => rw [← List.take_append_drop (xs.length - L.toNat) xs]
    rw [List.getLast?_append_of_ne_nil _ hdropne]

/-- Concrete fresh buffer of capacity 2 (what `NewRingBuffer Trace 2` builds). -/
def c2rb0 : RingBuffer Trace :=
  { data := List.replicate 2 default, size := 2, count := 0, head := 0, tail := 0 }

/-- Three concrete traces to push. -/
def c2xs : List Trace :=
  [[("mouseMoves", .int 1)], [("mouseMoves", .int 2)], [("mouseMoves", .int 3)]]

/-- Witness for C2 at `L = 2` and three pushes. -/
theorem c2_witness :
    (0 : Int) < 2 ∧ NewRingBuffer Trace 2 = .ok c2rb0 ∧ c2xs ≠ []
    ∧ (c2rb0.pushAll c2xs).Len = min c2xs.length (2 : Int).toNat
    ∧ (c2rb0.pushAll c2xs).ToSlice.getLast? = c2xs.getLast? :=
  ⟨by decide, rfl, by decide,
   (c2_ringBuffer_push_sequence 2 (by decide) c2xs c2rb0 rfl).1,
   (c2_ringBuffer_push_sequence 2 (by decide) c2xs c2rb0 rfl).2.2 (by decide)⟩

/-! ## TracesRepository (src/unnamed/part_008, package trace) -/

/-- Embeds `trace.TracesRepository`: per-token ring buffers (`traces`) and
last-update times (`tracesUpdates`). The cleanup ticker and the mutex are
concurrency artifacts with no sequential content and are dropped;
`time.Time` values are opaque `Int` timestamps. -/
structure TracesRepository where
  length : Int
  ttl : Int
  traces : List (String × RingBuffer Trace)
  tracesUpdates : List (String × Int)
  deriving Repr

/-- Embeds `trace.NewTracesRepository(length, ttl)`: fills the fields and allocates
empty maps; the capacity is not validated here. -/
def NewTracesRepository (length : Int) (ttl : Int) : TracesRepository :=
  { length := length, ttl := ttl, traces := [], tracesUpdates := [] }

/-- Embeds `TracesRepository.Append(id, t)`: look the buffer up; when absent,
create it with `NewRingBuffer(length)` (whose panic on `length ≤ 0`
surfaces as `Except.error`) and record `tracesUpdates[id] = time.Now()`
(the explicit `now` argument); finally push `t`. When the buffer already
exists only the push happens. -/
def TracesRepository.Append (tr : TracesRepository) (id : String) (t : Trace)
    (now : Int) : Except String TracesRepository :=
  match mapGet? tr.traces id with
  | some buffer => .ok { tr with traces := mapSet tr.traces id (buffer.Push t) }
  | none =>
    match NewRingBuffer Trace tr.length with
    | .error e => .error e
    | .ok buffer =>
      .ok { tr with
              traces := mapSet tr.traces id (buffer.Push t),
              tracesUpdates := mapSet tr.tracesUpdates id now }

/-- Embeds `TracesRepository.Get(id)`: a snapshot copy of the ring contents in
oldest-to-newest order; `none` models the Go `(nil, false)` return. -/
def TracesRepository.Get (tr : TracesRepository) (id : String) : Option (List Trace) :=
  match mapGet? tr.traces id with
  | none => none
  | some buffer => some buffer.ToSlice

/-- Repository well-formedness: every stored ring buffer is well-formed
(which `NewRingBuffer` establishes and `Push` preserves). -/
def TracesRepository.WF (tr : TracesRepository) : Prop :=
  ∀ id buf, mapGet? tr.traces id = some buf → buf.WF

theorem wf_of_singleton (k : String) (rb : RingBuffer Trace) (hrb : rb.WF)
    (len ttl : Int) (upd : List (String × Int)) :
    TracesRepository.WF
      { length := len, ttl := ttl, traces := [(k, rb)], tracesUpdates := upd } := by
  intro id buf h
  simp only [mapGet?] at h
  by_cases hk : k = id
  · rw [if_pos hk] at h
    cases h
    exact hrb
  · rw [if_neg hk] at h
    cases h

/-- After a successful `Append(id, x)`, `Get(id)` finds a snapshot whose
last element is `x` (shared core of the repository claims). -/
theorem append_get_self (tr : TracesRepository) (hWF : tr.WF) (id : String)
    (x : Trace) (now : Int) (tr' : TracesRepository)
    (h : tr.Append id x now = .ok tr') :
    ∃ l, tr'.Get id = some l ∧ l.getLast? = some x := by
  unfold TracesRepository.Append at h
  cases hfound : mapGet? tr.traces id with
  | some buffer =>
    rw [hfound] at h
    cases h
    refine ⟨(buffer.Push x).ToSlice, ?_, ?_⟩
    · unfold TracesRepository.Get
      simp only [mapGet?_set_self]
    · rw [toSlice_push buffer (hWF id buffer hfound) x]
      by_cases hc : buffer.count < buffer.size
      · rw [if_pos hc]; exact List.getLast?_concat _
      · rw [if_neg hc]; exact List.getLast?_concat _
  | none =>
    rw [hfound] at h
    cases hnew : NewRingBuffer Trace tr.length with
    | error e => rw [hnew] at h; cases h
    | ok buffer =>
      rw [hnew] at h
      cases h
      refine ⟨(buffer.Push x).ToSlice, ?_, ?_⟩
      · unfold TracesRepository.Get
        simp only [mapGet?_set_self]
      · rw [toSlice_push buffer (newRingBuffer_wf tr.length buffer hnew) x]
        by_cases hc : buffer.count < buffer.size
        · rw [if_pos hc]; exact List.getLast?_concat _
        · rw [if_neg hc]; exact List.getLast?_concat _

/-- C8: after `Append(t, x)` returns, `Get(t)` reports the snapshot with `x`
as its last element, and `Get(u)` for every other token `u` is unchanged. -/
theorem c8_append_frame (tr : TracesRepository) (hWF : tr.WF) (t u : String)
    (x : Trace) (now : Int) (hne : u ≠ t) (tr' : TracesRepository)
    (h : tr.Append t x now = .ok tr') :
    (∃ l, tr'.Get t = some l ∧ l.getLast? = some x) ∧ tr'.Get u = tr.Get u := by
  refine ⟨append_get_self tr hWF t x now tr' h, ?_⟩
  unfold TracesRepository.Append at h
  cases hfound : mapGet? tr.traces t with
  | some buffer =>
    rw [hfound] at h
    cases h
    unfold TracesRepository.Get
    rw [mapGet?_set_ne tr.traces t u _ hne]
  | none =>
    rw [hfound] at h
    cases hnew : NewRingBuffer Trace tr.length with
    | error e => rw [hnew] at h; cases h
    | ok buffer =>
      rw [hnew] at h
      cases h
      unfold TracesRepository.Get
      rw [mapGet?_set_ne tr.traces t u _ hne]

/-- C1 (amended): every successful `Append(token, trace)` ensures a ring
buffer exists for the token and pushes the trace, but `lastTouch`
(`tracesUpdates`) is written only when the entry is first created; an
`Append` to an existing entry leaves `tracesUpdates` unchanged. -/
theorem c1_append_touch_on_create (tr : TracesRepository) (hWF : tr.WF)
    (id : String) (x : Trace) (now : Int) (tr' : TracesRepository)
    (h : tr.Append id x now = .ok tr') :
    (∃ l, tr'.Get id = some l ∧ l.getLast? = some x)
    ∧ (mapGet? tr.traces id = none → mapGet? tr'.tracesUpdates id = some now)
    ∧ (∀ buf, mapGet? tr.traces id = some buf →
        tr'.tracesUpdates = tr.tracesUpdates) := by
  refine ⟨append_get_self tr hWF id x now tr' h, ?_, ?_⟩
  · intro hnone
    unfold TracesRepository.Append at h
    rw [hnone] at h
    cases hnew : NewRingBuffer Trace tr.length with
    | error e => rw [hnew] at h; cases h
    | ok buffer =>
      rw [hnew] at h
      cases h
      exact mapGet?_set_self _ _ _
  · intro buf hsome
    unfold TracesRepository.Append at h
    rw [hsome] at h
    cases h
    rfl

/-- C1 counterexample traces. -/
def c1x1 : Trace := [("clicks", TraceValue.int 1)]

/-- Second C1 counterexample trace. -/
def c1x2 : Trace := [("clicks", TraceValue.int 2)]

/-- The repository state after `Append "a" c1x1` at time 0 into a fresh
repository of capacity 2. -/
def c1rb1 : RingBuffer Trace :=
  { data := [c1x1, []], size := 2, count := 1, head := 0, tail := 1 }

/-- Repository after the first Append. -/
def c1repo1 : TracesRepository :=
  { length := 2, ttl := 10, traces := [("a", c1rb1)], tracesUpdates := [("a", 0)] }

/-- Buffer after the second Append. -/
def c1rb2 : RingBuffer Trace :=
  { data := [c1x1, c1x2], size := 2, count := 2, head := 0, tail := 0 }

/-- Repository after the second Append: note `tracesUpdates` still maps
`"a"` to time 0, not to the later Append time 5. -/
def c1repo2 : TracesRepository :=
  { length := 2, ttl := 10, traces := [("a", c1rb2)], tracesUpdates := [("a", 0)] }

/-- C1 counterexample: Append `"a"` at time 0 and again at time 5; after the
second call the token's `lastTouch` is still 0, so `lastTouch` is not
updated on every `Append`, only on entry creation. -/
theorem c1_counterexample :
    (NewTracesRepository 2 10).Append "a" c1x1 0 = .ok c1repo1
    ∧ c1repo1.Append "a" c1x2 5 = .ok c1repo2
    ∧ mapGet? c1repo2.tracesUpdates "a" = some 0
    ∧ mapGet? c1repo2.tracesUpdates "a" ≠ some 5 := by
  refine ⟨rfl, rfl, rfl, ?_⟩
  intro h
  cases h

theorem c1rb1_wf : c1rb1.WF := by
  refine ⟨?_, ?_, ?_, ?_, ?_⟩ <;> decide

/-- Witness for C1 (amended), exercising both the creation branch (fresh
repository, `lastTouch` set to `now = 0`) and the existing-entry branch
(`tracesUpdates` unchanged by the Append at time 5). -/
theorem c1_witness :
    (NewTracesRepository 2 10).Append "a" c1x1 0 = .ok c1repo1
    ∧ mapGet? c1repo1.tracesUpdates "a" = some 0
    ∧ c1repo1.Append "a" c1x2 5 = .ok c1repo2
    ∧ c1repo2.tracesUpdates = c1repo1.tracesUpdates :=
  ⟨rfl,
   (c1_append_touch_on_create (NewTracesRepository 2 10)
      (fun _ _ h => by cases h) "a" c1x1 0 c1repo1 rfl).2.1 rfl,
   rfl,
   (c1_append_touch_on_create c1repo1
      (wf_of_singleton "a" c1rb1 c1rb1_wf 2 10 [("a", 0)]) "a" c1x2 5 c1repo2
      rfl).2.2 c1rb1 rfl⟩

/-- Witness for C8: appending to token `"a"` leaves token `"b"` untouched. -/
theorem c8_witness :
    c1repo1.Append "a" c1x2 5 = .ok c1repo2
    ∧ c1repo2.Get "b" = c1repo1.Get "b"
    ∧ (∃ l, c1repo2.Get "a" = some l ∧ l.getLast? = some c1x2) :=
  ⟨rfl,
   (c8_append_frame c1repo1
      (wf_of_singleton "a" c1rb1 c1rb1_wf 2 10 [("a", 0)]) "a" "b" c1x2 5
      (by decide) c1repo2 rfl).2,
   (c8_append_frame c1repo1
      (wf_of_singleton "a" c1rb1 c1rb1_wf 2 10 [("a", 0)]) "a" "b" c1x2 5
      (by decide) c1repo2 rfl).1⟩

/-- C10: `NewTracesRepository` accepts a non-positive `length` without
failing (it returns a repository with empty maps), and for `length ≤ 0`
the first `Append` for any token hits the `NewRingBuffer` panic: the
fail-fast check happens at first Append per token, not at construction. -/
theorem c10_nonpositive_length (length ttl : Int) (hle : length ≤ 0)
    (id : String) (t : Trace) (now : Int) :
    (NewTracesRepository length ttl).traces = []
    ∧ (NewTracesRepository length ttl).Append id t now
        = .error "ring buffer size must be positive" := by
  refine ⟨rfl, ?_⟩
  unfold TracesRepository.Append
  simp [NewTracesRepository, mapGet?, NewRingBuffer, hle]

/-- Witness for C10 at `length = -1`. -/
theorem c10_witness :
    (-1 : Int) ≤ 0
    ∧ ((NewTracesRepository (-1) 60).traces = []
       ∧ (NewTracesRepository (-1) 60).Append "tok" [] 0
           = .error "ring buffer size must be positive") :=
  ⟨by decide, c10_nonpositive_length (-1) 60 (by decide) "tok" [] 0⟩

/-! ## Rule (src/internal/score/rule/rule.go) -/

/-- A CEL runtime value (the tagged scalar the compiled program returns). -/
inductive CelValue where
  | bool (b : Bool)
  | int (n : Int)
  | str (s : String)
  deriving DecidableEq, Repr

/-- A CEL runtime evaluation error. `missingVar` models the cel-go
"no such attribute" failure raised when a variable referenced by the
predicate has no binding in the evaluated trace; `other` covers the
remaining runtime failures. -/
inductive CelError where
  | missingVar (name : String)
  | other (msg : String)
  deriving DecidableEq, Repr

/-- Embeds `rule.Rule`: `When` is the CEL source, `Then` the Score delta, and
`program` the compiled CEL program that `Init` produced. cel-go is an
external library, so the program is modelled by its input/output behavior:
a function from the trace binding to a runtime result. -/
structure Rule where
  When : String
  Then : Score
  program : Trace → Except CelError CelValue

/-- Embeds `emptyScore`: the shared empty Score returned on failed evaluation. -/
def emptyScore : Score := []

/-- Embeds `Rule.Eval(t)`: run the compiled program on the trace; on a runtime
error, or when the result compares equal to `false`, return the empty
Score; otherwise return the `Then` delta. The error component of the Go
return is always nil. -/
def Rule.Eval (r : Rule) (t : Trace) : Score × Option CelError :=
  match r.program t with
  | .error _ => (emptyScore, none)
  | .ok v => if v = CelValue.bool false then (emptyScore, none) else (r.Then, none)

/-- C6: `Rule.Eval` returns the `then` Score when the predicate evaluates
to true, an empty Score when it evaluates to false, and an empty Score
with no error propagated when runtime evaluation fails (missing variable
bindings included, as a `CelError.missingVar` runtime error). -/
theorem c6_rule_eval (r : Rule) (t : Trace) :
    (r.Eval t).2 = none
    ∧ (r.program t = .ok (.bool true) → (r.Eval t).1 = r.Then)
    ∧ (r.program t = .ok (.bool false) → (r.Eval t).1 = emptyScore)
    ∧ (∀ e, r.program t = .error e → (r.Eval t).1 = emptyScore) := by
  refine ⟨?_, ?_, ?_, ?_⟩
  · unfold Rule.Eval
    cases hp : r.program t with
    | error e => rfl
    | ok v =>
      by_cases hv : v = CelValue.bool false <;> simp [hv]
  · intro hp
    unfold Rule.Eval
    rw [hp]
    rfl
  · intro hp
    unfold Rule.Eval
    rw [hp]
    rfl
  · intro e hp
    unfold Rule.Eval
    rw [hp]

/-- A rule whose compiled program evaluates to true on every trace. -/
def c6ruleTrue : Rule :=
  { When := "clicks > 1", Then := [("behavior", 1)],
    program := fun _ => .ok (.bool true) }

/-- A rule whose compiled program evaluates to false on every trace. -/
def c6ruleFalse : Rule :=
  { When := "clicks > 100", Then := [("behavior", 1)],
    program := fun _ => .ok (.bool false) }

/-- A rule whose compiled program fails at runtime with a missing-variable
binding. -/
def c6ruleErr : Rule :=
  { When := "unknownField == 1", Then := [("behavior", 1)],
    program := fun _ => .error (.missingVar "unknownField") }

/-- Witness for C6: the three outcomes at concrete rules and the empty
trace. -/
theorem c6_witness :
    (c6ruleTrue.Eval []).1 = c6ruleTrue.Then
    ∧ (c6ruleFalse.Eval []).1 = emptyScore
    ∧ (c6ruleErr.Eval []).1 = emptyScore
    ∧ (c6ruleErr.Eval []).2 = none :=
  ⟨(c6_rule_eval c6ruleTrue []).2.1 rfl,
   (c6_rule_eval c6ruleFalse []).2.2.1 rfl,
   (c6_rule_eval c6ruleErr []).2.2.2 (.missingVar "unknownField") rfl,
   (c6_rule_eval c6ruleErr []).1⟩

/-! ## RulesScorer (src/unnamed/part_005, package scorer) -/

/-- Embeds `scorer.RulesScorer`: ordered rule list and the clamp bounds. -/
structure RulesScorer where
  rules : List Rule
  min : Rat
  max : Rat

/-- Embeds `scorer.NewRulesScorer(rules, min, max)`. -/
def NewRulesScorer (rules : List Rule) (mn mx : Rat) : RulesScorer :=
  { rules := rules, min := mn, max := mx }

/-- One iteration of the per-dimension accumulation in `RulesScorer.Score`:
`newScore := score[key] + d`, then the three-way switch writing `min`,
`max`, or `newScore`. -/
def scoreStep (mn mx : Rat) (s : Score) (kd : String × Rat) : Score :=
  if scoreGet s kd.1 + kd.2 < mn then mapSet s kd.1 mn
  else if scoreGet s kd.1 + kd.2 > mx then mapSet s kd.1 mx
  else mapSet s kd.1 (scoreGet s kd.1 + kd.2)

/-- The `for key, d := range delta` loop of `RulesScorer.Score`. -/
def applyDelta (mn mx : Rat) (acc : Score) (delta : Score) : Score :=
  delta.foldl (scoreStep mn mx) acc

/-- Embeds `RulesScorer.Score(ctx, traces)`: iterate traces × rules in declaration
order; an eval error skips the rule for that trace; the accumulated score
is returned with a nil error. The unused context is dropped. -/
def RulesScorer.Score (rs : RulesScorer) (traces : List Trace) :
    Score × Option String :=
  let final := traces.foldl (fun acc t =>
    rs.rules.foldl (fun acc2 r =>
      match r.Eval t with
      | (_, some _) => acc2
      | (delta, none) => applyDelta rs.min rs.max acc2 delta) acc) []
  (final, none)

theorem foldl_preserve {α β : Type} (P : β → Prop) (f : β → α → β) (l : List α)
    (b : β) (hb : P b) (hf : ∀ b a, P b → P (f b a)) : P (l.foldl f b) := by
  induction l generalizing b with
  | nil => exact hb
  | cons x xs ih => exact ih _ (hf b x hb)

theorem scoreStep_bounds (mn mx : Rat) (hmm : mn ≤ mx) (s : Score)
    (kd : String × Rat) (hs : ∀ kv ∈ s, mn ≤ kv.2 ∧ kv.2 ≤ mx) :
    ∀ kv ∈ scoreStep mn mx s kd, mn ≤ kv.2 ∧ kv.2 ≤ mx := by
  unfold scoreStep
  split_ifs with h1 h2 <;> intro kv hkv <;>
    rcases mem_mapSet _ _ _ kv hkv with heq | hmem
  · rw [heq]; exact ⟨le_refl mn, hmm⟩
  · exact hs kv hmem
  · rw [heq]; exact ⟨hmm, le_refl mx⟩
  · exact hs kv hmem
  · rw [heq]
    constructor
    · exact not_lt.mp h1
    · exact not_lt.mp h2
  · exact hs kv hmem

theorem applyDelta_bounds (mn mx : Rat) (hmm : mn ≤ mx) (acc delta : Score)
    (hacc : ∀ kv ∈ acc, mn ≤ kv.2 ∧ kv.2 ≤ mx) :
    ∀ kv ∈ applyDelta mn mx acc delta, mn ≤ kv.2 ∧ kv.2 ≤ mx := by
  unfold applyDelta
  exact foldl_preserve (fun s => ∀ kv ∈ s, mn ≤ kv.2 ∧ kv.2 ≤ mx)
    (scoreStep mn mx) delta acc hacc (fun b a hb => scoreStep_bounds mn mx hmm b a hb)

/-- C4: for bounds `min ≤ max`, `RulesScorer.Score` never returns an error
(rule evaluation errors are skipped), and every dimension value of the
returned Score lies in `[min, max]` — the clamp is applied after each
individual delta addition. -/
theorem c4_rulesScorer_bounds (rs : RulesScorer) (traces : List Trace)
    (hmm : rs.min ≤ rs.max) :
    (rs.Score traces).2 = none
    ∧ ∀ kv ∈ (rs.Score traces).1, rs.min ≤ kv.2 ∧ kv.2 ≤ rs.max := by
  refine ⟨rfl, ?_⟩
  show ∀ kv ∈ traces.foldl (fun acc t =>
      rs.rules.foldl (fun acc2 r =>
        match r.Eval t with
        | (_, some _) => acc2
        | (delta, none) => applyDelta rs.min rs.max acc2 delta) acc) [],
    rs.min ≤ kv.2 ∧ kv.2 ≤ rs.max
  refine foldl_preserve (fun s : Score => ∀ kv ∈ s, rs.min ≤ kv.2 ∧ kv.2 ≤ rs.max)
    _ traces [] ?_ ?_
  · intro kv hkv
    cases hkv
  · intro acc t hacc
    refine foldl_preserve (fun s : Score => ∀ kv ∈ s, rs.min ≤ kv.2 ∧ kv.2 ≤ rs.max)
      _ rs.rules acc hacc ?_
    · intro acc2 r hacc2
      cases hEval : r.Eval t with
      | mk delta err =>
        cases err with
        | none => exact applyDelta_bounds rs.min rs.max hmm acc2 delta hacc2
        | some e => exact hacc2

/-- A concrete rule contributing a delta of 2 to dimension `automation`. -/
def c4rule : Rule :=
  { When := "mouseMoves > 5", Then := [("automation", 2)],
    program := fun _ => .ok (.bool true) }

/-- A concrete RulesScorer with bounds [-1, 1] (the bounds wired in
`main.prepareScorers`). -/
def c4rs : RulesScorer := NewRulesScorer [c4rule] (-1) 1

/-- One concrete trace. -/
def c4traces : List Trace := [[("mouseMoves", TraceValue.int 10)]]

/-- Witness for C4: the +2 delta saturates at the upper bound 1 and the
result carries a nil error. -/
theorem c4score_eval : (c4rs.Score c4traces).1 = [("automation", 1)] := by
  norm_num [RulesScorer.Score, applyDelta, scoreStep, scoreGet, mapGet?, mapSet,
    Rule.Eval, c4rs, c4rule, c4traces, NewRulesScorer]

theorem c4_witness :
    c4rs.min ≤ c4rs.max
    ∧ (c4rs.Score c4traces).1 = [("automation", 1)]
    ∧ (c4rs.Score c4traces).2 = none
    ∧ (c4rs.min ≤ (1 : Rat) ∧ (1 : Rat) ≤ c4rs.max) :=
  ⟨by norm_num [c4rs, NewRulesScorer], c4score_eval,
   (c4_rulesScorer_bounds c4rs c4traces (by norm_num [c4rs, NewRulesScorer])).1,
   (c4_rulesScorer_bounds c4rs c4traces (by norm_num [c4rs, NewRulesScorer])).2
     ("automation", 1) (by rw [c4score_eval]; exact List.mem_singleton.mpr rfl)⟩

/-! ## CompositeScorer (src/internal/score/scorer/composite_scorer.go) -/

/-- Embeds `score.TracesScorer`: the scorer capability `Score(ctx, traces)`.
The context argument carries no sequential content and is dropped. -/
def TracesScorer := List Trace → Except String Score

/-- Embeds `scorer.CompositeScorer`: the ordered scorer list. The Go struct also
holds the traces repository pointer and a base context; the repository is
passed explicitly to `Score` and the context is dropped. -/
structure CompositeScorer where
  scorers : List TracesScorer

/-- The error `errors.New("trace id not found: " + id)` returned by
`CompositeScorer.Score` when the repository has no traces for the token
(the distinguished score-not-found error of the specification). -/
def traceNotFound (id : String) : String := "trace id not found: " ++ id

/-- One iteration of the merge loop of `CompositeScorer.Score`:
`result[k] += v`, then clamp the written entry into [0, 1]. -/
def mergeStep (result : Score) (kv : String × Rat) : Score :=
  if scoreGet result kv.1 + kv.2 > 1 then mapSet result kv.1 1
  else if scoreGet result kv.1 + kv.2 < 0 then mapSet result kv.1 0
  else mapSet result kv.1 (scoreGet result kv.1 + kv.2)

/-- The `for _, s := range cs.scorers` loop of `CompositeScorer.Score`:
any scorer error aborts and is returned; otherwise the scorer's Score is
merged into the accumulator dimension by dimension. -/
def compositeRun : List TracesScorer → List Trace → Score → Except String Score
  | [], _, result => .ok result
  | s :: rest, traces, result =>
    match s traces with
    | .error e => .error e
    | .ok sc => compositeRun rest traces (sc.foldl mergeStep result)

/-- Embeds `CompositeScorer.Score(id)`: fetch the traces for the token (absence is
the `traceNotFound` error), then run every scorer in order and merge with
per-addition clamping into [0, 1]. -/
def CompositeScorer.Score (cs : CompositeScorer) (repo : TracesRepository)
    (id : String) : Except String Score :=
  match repo.Get id with
  | none => .error (traceNotFound id)
  | some traces => compositeRun cs.scorers traces []

theorem mergeStep_bounds (result : Score) (kv : String × Rat)
    (hres : ∀ e ∈ result, 0 ≤ e.2 ∧ e.2 ≤ 1) :
    ∀ e ∈ mergeStep result kv, 0 ≤ e.2 ∧ e.2 ≤ 1 := by
  unfold mergeStep
  split_ifs with h1 h2 <;> intro e he <;>
    rcases mem_mapSet _ _ _ e he with heq | hmem
  · rw [heq]
    exact ⟨zero_le_one, le_refl 1⟩
  · exact hres e hmem
  · rw [heq]
    exact ⟨le_refl 0, zero_le_one⟩
  · exact hres e hmem
  · rw [heq]
    exact ⟨not_lt.mp h2, not_lt.mp h1⟩
  · exact hres e hmem

theorem compositeRun_bounds (ss : List TracesScorer) (traces : List Trace)
    (acc : Score) (sc : Score) (hacc : ∀ e ∈ acc, 0 ≤ e.2 ∧ e.2 ≤ 1)
    (h : compositeRun ss traces acc = .ok sc) :
    ∀ e ∈ sc, 0 ≤ e.2 ∧ e.2 ≤ 1 := by
  induction ss generalizing acc with
  | nil =>
    unfold compositeRun at h
    cases h
    exact hacc
  | cons s rest ih =>
    unfold compositeRun at h
    cases hs : s traces with
    | error e => rw [hs] at h; cases h
    | ok s2 =>
      rw [hs] at h
      refine ih _ ?_ h
      exact foldl_preserve (fun r : Score => ∀ e ∈ r, 0 ≤ e.2 ∧ e.2 ≤ 1)
        mergeStep s2 acc hacc (fun b a hb => mergeStep_bounds b a hb)

/-- C3: every dimension value of a Score successfully returned by
`CompositeScorer.Score` lies in [0, 1] — the merge clamps after every
single addition. -/
theorem c3_compositeScorer_unit_interval (cs : CompositeScorer)
    (repo : TracesRepository) (id : String) (sc : Score)
    (h : cs.Score repo id = .ok sc) :
    ∀ kv ∈ sc, 0 ≤ kv.2 ∧ kv.2 ≤ 1 := by
  unfold CompositeScorer.Score at h
  cases hget : repo.Get id with
  | none => rw [hget] at h; cases h
  | some traces =>
    rw [hget] at h
    exact compositeRun_bounds cs.scorers traces [] sc (by intro e he; cases he) h

/-- A concrete scorer returning the over-unit dimension value 2. -/
def c3scorer : TracesScorer := fun _ => .ok [("human", 2)]

/-- A concrete composite over that single scorer. -/
def c3cs : CompositeScorer := ⟨[c3scorer]⟩

theorem c3score_eval : c3cs.Score c1repo1 "a" = .ok [("human", 1)] := by
  norm_num [CompositeScorer.Score, TracesRepository.Get, compositeRun, mergeStep,
    scoreGet, mapGet?, mapSet, c3cs, c3scorer, c1repo1, c1rb1]

/-- Witness for C3: the scorer's raw value 2 is clamped to 1, inside [0, 1]. -/
theorem c3_witness :
    c3cs.Score c1repo1 "a" = .ok [("human", 1)]
    ∧ ((0 : Rat) ≤ 1 ∧ (1 : Rat) ≤ 1) :=
  ⟨c3score_eval,
   c3_compositeScorer_unit_interval c3cs c1repo1 "a" [("human", 1)] c3score_eval
     ("human", 1) (List.mem_singleton.mpr rfl)⟩

/-! ## scoreHandler (src/internal/server/router.go) -/

theorem length_ne_zero_of_ne_empty (s : String) (h : s ≠ "") : ¬ (s.length = 0) := by
  intro h0
  apply h
  cases s with
  | mk data =>
    have hlen : data.length = 0 := h0
    have hd : data = [] := List.length_eq_zero.mp hlen
    rw [hd]

/-- Embeds `ApiV1Router.scoreHandler`: empty path token answers 422; a scorer
error answers 404; a marshalling failure answers 400; otherwise the JSON
body is written (status 200). `encoding/json.Marshal` is external and is
modelled by the `marshal` parameter, `none` being a marshalling error.
The result is the pair (HTTP status, response body). -/
def scoreHandler (cs : CompositeScorer) (repo : TracesRepository)
    (marshal : Score → Option String) (token : String) : Nat × Option String :=
  if token.length = 0 then (422, none)
  else
    match cs.Score repo token with
    | .error _ => (404, none)
    | .ok sc =>
      match marshal sc with
      | none => (400, none)
      | some body => (200, some body)

/-- C5: for `GET /api/v1/scores/{token}`: an empty path token answers 422;
when the repository holds no traces, `CompositeScorer.Score` fails with the
distinguished `traceNotFound token` error and the handler answers 404; a
marshalling failure of a computed score answers 400. -/
theorem c5_scoreHandler_errors (cs : CompositeScorer) (repo : TracesRepository)
    (marshal : Score → Option String) (token : String) :
    (token = "" → scoreHandler cs repo marshal token = (422, none))
    ∧ (token ≠ "" → repo.Get token = none →
        cs.Score repo token = .error (traceNotFound token)
        ∧ scoreHandler cs repo marshal token = (404, none))
    ∧ (∀ sc, token ≠ "" → cs.Score repo token = .ok sc → marshal sc = none →
        scoreHandler cs repo marshal token = (400, none)) := by
  refine ⟨?_, ?_, ?_⟩
  · intro he
    subst he
    rfl
  · intro hne hget
    have hscore : cs.Score repo token = .error (traceNotFound token) := by
      unfold CompositeScorer.Score
      rw [hget]
    refine ⟨hscore, ?_⟩
    unfold scoreHandler
    rw [if_neg (length_ne_zero_of_ne_empty token hne), hscore]
  · intro sc hne hok hmar
    unfold scoreHandler
    rw [if_neg (length_ne_zero_of_ne_empty token hne), hok]
    simp [hmar]

/-- A marshaller that always fails (models `json.Marshal` returning an
error, e.g. on a non-finite float value). -/
def c5marshalFail : Score → Option String := fun _ => none

/-- Witness for C5: the three error paths at concrete inputs — empty token
(422), unknown token `"zz"` in `c1repo1` (distinguished error and 404),
and a marshalling failure for the computed score of token `"a"` (400). -/
theorem c5_witness :
    scoreHandler c3cs c1repo1 c5marshalFail "" = (422, none)
    ∧ c1repo1.Get "zz" = none
    ∧ (c3cs.Score c1repo1 "zz" = .error (traceNotFound "zz")
       ∧ scoreHandler c3cs c1repo1 c5marshalFail "zz" = (404, none))
    ∧ scoreHandler c3cs c1repo1 c5marshalFail "a" = (400, none) :=
  ⟨(c5_scoreHandler_errors c3cs c1repo1 c5marshalFail "").1 rfl,
   rfl,
   (c5_scoreHandler_errors c3cs c1repo1 c5marshalFail "zz").2.1 (by decide) rfl,
   (c5_scoreHandler_errors c3cs c1repo1 c5marshalFail "a").2.2 [("human", 1)]
     (by decide) c3score_eval rfl⟩

/-! ## DatasetSink (src/unnamed/part_000, package dataset) -/

/-- A wall-clock instant broken into calendar fields, as Go's `time.Time`
presents them to `Format`. -/
structure GoTime where
  year : Nat
  month : Nat
  day : Nat
  hour : Nat
  minute : Nat
  second : Nat
  deriving DecidableEq, Repr

/-- Two-digit zero padding of the numeric layout atoms (`01`, `02`, `15`,
`04`, `05`). -/
def pad2 (n : Nat) : String :=
  if n < 10 then "0" ++ toString n else toString n

/-- Rendering of the layout string `"2006-01-01 15:04:05"` that
`customJSONHandler.Handle` passes to `Time.Format`. In Go's reference
time, `2006` is the year, `01` the month, `02` the day, `15` the hour,
`04` the minute and `05` the second; this layout contains `01` twice and
no `02`, so the month is printed in both date slots and the day of the
month never appears. -/
def handleTimeFormat (t : GoTime) : String :=
  toString t.year ++ "-" ++ pad2 t.month ++ "-" ++ pad2 t.month ++ " "
    ++ pad2 t.hour ++ ":" ++ pad2 t.minute ++ ":" ++ pad2 t.second

/-- Modelled from the spec: the specified `YYYY-MM-DD HH:MM:SS` rendering
(which the Go layout `"2006-01-02 15:04:05"` would produce), for
comparison with what the code writes. -/
def specTimeFormat (t : GoTime) : String :=
  toString t.year ++ "-" ++ pad2 t.month ++ "-" ++ pad2 t.day ++ " "
    ++ pad2 t.hour ++ ":" ++ pad2 t.minute ++ ":" ++ pad2 t.second

/-- A JSON value (the subset the dataset sink line carries). -/
inductive JsonValue where
  | str (s : String)
  | int (n : Int)
  | bool (b : Bool)
  | obj (fields : List (String × JsonValue))
  deriving Repr

/-- Trace values carried verbatim into the `trace` attribute. -/
def traceValueToJson : TraceValue → JsonValue
  | .int n => .int n
  | .str s => .str s
  | .bool b => .bool b

/-- The trace as the JSON object of the `trace` attribute. -/
def traceToJson (t : Trace) : List (String × JsonValue) :=
  t.map (fun kv => (kv.1, traceValueToJson kv.2))

/-- The single JSON object line a successful
`JsonDatasetRepository.Append(token, t)` writes: `Handle` builds an attrs
map with `time` (the formatted record time) and the record attributes
`token` and `trace`, marshals it, and writes it followed by one newline.
`json.Marshal` emits Go map keys in sorted order, which for these three
keys is `time`, `token`, `trace`. -/
def datasetLine (now : GoTime) (token : String) (t : Trace) :
    List (String × JsonValue) :=
  [("time", .str (handleTimeFormat now)),
   ("token", .str token),
   ("trace", .obj (traceToJson t))]

/-- The failing instant 2025-03-15 10:00:00. -/
def c7time : GoTime :=
  { year := 2025, month := 3, day := 15, hour := 10, minute := 0, second := 0 }

/-- C7 (code bug): each Append line is one JSON object with exactly the
top-level keys `time`, `token`, `trace`, but the `time` value repeats the
month in the day slot (layout `"2006-01-01 15:04:05"` instead of
`"2006-01-02 15:04:05"`): at 2025-03-15 10:00:00 the code writes
`2025-03-03 10:00:00` where the specification requires
`2025-03-15 10:00:00`. -/
theorem c7_dataset_time_format :
    (datasetLine c7time "sid-1" []).map Prod.fst = ["time", "token", "trace"]
    ∧ handleTimeFormat c7time = "2025-03-03 10:00:00"
    ∧ specTimeFormat c7time = "2025-03-15 10:00:00"
    ∧ handleTimeFormat c7time ≠ specTimeFormat c7time := by
  refine ⟨rfl, by decide, by decide, by decide⟩

/-! ## Configuration (src/internal/configuration/configuration.go and
src/cmd/main.go) -/

/-- Embeds `configuration.LoggerConfig`. -/
structure LoggerConfig where
  Level : String
  deriving DecidableEq, Repr

/-- Embeds `configuration.ServerConfig`. -/
structure ServerConfig where
  Address : String
  Static : String
  deriving DecidableEq, Repr

/-- Embeds `configuration.ScorerConfig`; the Go field `Type` is `typ` here
(`Type` is reserved in Lean). -/
structure ScorerConfig where
  typ : String
  Model : String
  Url : String
  Rules : String
  deriving DecidableEq, Repr

/-- Embeds `configuration.AnalysisConfig`; `TracesTtl` is an opaque duration. -/
structure AnalysisConfig where
  Token : String
  Scorers : List ScorerConfig
  TracesLength : Int
  TracesTtl : Int
  deriving DecidableEq, Repr

/-- Embeds `configuration.DatasetConfig`. -/
structure DatasetConfig where
  File : String
  Size : Int
  Amount : Int
  deriving DecidableEq, Repr

/-- Embeds `configuration.AppConfig`. -/
structure AppConfig where
  Logger : LoggerConfig
  Server : ServerConfig
  Analysis : AnalysisConfig
  Dataset : DatasetConfig
  deriving DecidableEq, Repr

/-- Models the external `strings.ToLower`: lowercases every character. -/
def goToLower (s : String) : String := ⟨s.data.map Char.toLower⟩

/-- Embeds `LoggerConfig.Validate`: the level must be set and one of the
supported values (checked lowercased). -/
def LoggerConfig.Validate (l : LoggerConfig) : Option String :=
  if l.Level = "" then some "logger.level: must be specified"
  else if ["debug", "info", "warn", "warning", "error"].contains (goToLower l.Level)
  then none
  else some ("logger.level: unsupported level " ++ l.Level)

/-- Embeds `ServerConfig.Validate`: the address must be set. -/
def ServerConfig.Validate (n : ServerConfig) : Option String :=
  if n.Address = "" then some "server.address: must be specified" else none

/-- Models the failure condition of the external `net/url.Parse`, which
rejects URLs containing ASCII control characters. -/
def urlParseFails (s : String) : Bool :=
  s.any (fun c => c.toNat < 32)

/-- Embeds `ScorerConfig.Validate`: an `ml` scorer needs a model name and a
parseable URL; a `rules` scorer needs a rules path; anything else is an
unknown scorer type. -/
def ScorerConfig.Validate (c : ScorerConfig) : Option String :=
  if c.typ = "ml" then
    if c.Model.length = 0 then some "ML scorer: model name must be specified"
    else if urlParseFails c.Url then some "ML scorer: URL is incorrect"
    else none
  else if c.typ = "rules" then
    if c.Rules.length = 0 then some "scorer rules: path must be specified"
    else none
  else some "Scorer type must be specified"

/-- Embeds `DatasetConfig.Validate`: writes the defaults (amount 20, size 100)
over zero values — Go mutates through the receiver pointer, modelled by
returning the updated record — and always returns a nil error. -/
def DatasetConfig.Validate (d : DatasetConfig) : DatasetConfig × Option String :=
  let d1 := if d.Amount = 0 then { d with Amount := 20 } else d
  let d2 := if d1.Size = 0 then { d1 with Size := 100 } else d1
  (d2, none)

/-- Embeds `AnalysisConfig.Validate`: at least one scorer, each scorer valid
(first error wins), and a token. -/
def AnalysisConfig.Validate (a : AnalysisConfig) : Option String :=
  if a.Scorers.length = 0 then some "analysis.scorers: must be specified"
  else
    match a.Scorers.findSome? ScorerConfig.Validate with
    | some e => some e
    | none =>
      if a.Token = "" then some "analysis.token: must be specified" else none

/-- Embeds `AppConfig.Validate`: validates the Logger, Server and Analysis
sections in order and returns the first error; `Dataset.Validate` is
never invoked, so the configuration passes through unchanged. -/
def AppConfig.Validate (c : AppConfig) : Except String AppConfig :=
  match c.Logger.Validate with
  | some e => .error e
  | none =>
    match c.Server.Validate with
    | some e => .error e
    | none =>
      match c.Analysis.Validate with
      | some e => .error e
      | none => .ok c

/-- The dataset-sink construction in `main`: when `config.Dataset.File` is
set, `NewJsonDatasetRepository(file, size, amount)` receives the validated
configuration's `Size` and `Amount` values. -/
def datasetSinkArgs (c : AppConfig) : Option (String × Int × Int) :=
  if c.Dataset.File ≠ "" then
    some (c.Dataset.File, c.Dataset.Size, c.Dataset.Amount)
  else none

/-- A configuration enabling the dataset sink with `size` and `amount`
unset (zero values). -/
def c9cfg : AppConfig :=
  { Logger := { Level := "info" },
    Server := { Address := ":8080", Static := "" },
    Analysis := { Token := "sid",
                  Scorers := [{ typ := "rules", Model := "", Url := "",
                                Rules := "/etc/bean/rules.yaml" }],
                  TracesLength := 100, TracesTtl := 600 },
    Dataset := { File := "/var/lib/bean/dataset.jsonl", Size := 0, Amount := 0 } }

/-- C9 (code bug): validated configuration loading accepts `c9cfg` but
leaves `dataset.size = 0` and `dataset.amount = 0`, so the sink is
constructed with (0, 0) rather than the documented defaults (100, 20):
`AppConfig.Validate` never calls `DatasetConfig.Validate`, whose defaults
are therefore dead code. -/
theorem c9_dataset_defaults_not_applied :
    AppConfig.Validate c9cfg = .ok c9cfg
    ∧ datasetSinkArgs c9cfg = some ("/var/lib/bean/dataset.jsonl", 0, 0)
    ∧ (DatasetConfig.Validate c9cfg.Dataset).1.Size = 100
    ∧ (DatasetConfig.Validate c9cfg.Dataset).1.Amount = 20
    ∧ datasetSinkArgs c9cfg ≠ some ("/var/lib/bean/dataset.jsonl", 100, 20) := by
  refine ⟨by rfl, by decide, by decide, by decide, by decide⟩

end Bean
